import Mathlib

/-!
# NotationParts (mu4/domain/notation/internal/notationparts.cpp)

A shallow embedding of the parts / instruments / staves facade of the notation
domain.  The host engine's object graph is a heap: `Part*`, `Instrument*` and
`Staff*` are addresses, and the objects they denote are read through the
document.  Host calls that change the document are parameters of the embedding
(`Host`); every call and every emitted event is appended to a log.
-/

set_option autoImplicit false

namespace NotationParts

/-! ## Data model -/

/-- Address of a `Ms::Part`. -/
abbrev PartPtr := Nat
/-- Address of a `Ms::Staff`. -/
abbrev StaffPtr := Nat
/-- Address of a `Ms::Instrument`. -/
abbrev InstrumentPtr := Nat
/-- Address of a `Ms::StaffType`. -/
abbrev StaffTypePtr := Nat

/-- Undefined behaviour of the C++ code, made explicit. -/
inductive Fault where
  | nullDereference
  | indexOutOfRange
deriving DecidableEq, Repr

/-- What this file reads of a `Ms::Instrument`: `instrumentId()` and `nstaves()`. -/
structure InstrumentObj where
  instrumentId : String
  nstaves : Nat
deriving DecidableEq, Repr

/-- What this file reads of a `Ms::Part`: `id()`, the values of `instruments()`
in the order of the instrument map, and `staves()`. -/
structure PartObj where
  id : String
  instruments : List InstrumentPtr
  staves : List StaffPtr
deriving DecidableEq, Repr

/-- What this file reads of a `Ms::Staff`: `idx()`, `part()`,
`staffType(Fraction(0, 1))`, `links()` (null or not) and `defaultClefType()`. -/
structure StaffObj where
  idx : Int
  part : Option PartPtr
  staffType : Option StaffTypePtr
  links : Bool
  defaultClefType : Nat
deriving DecidableEq, Repr

/-- What this file reads of a `Ms::Score`: `parts()`, the `parts()` of each of
its `excerpts()`, `isMaster()` and `staves()`. -/
structure ScoreObj where
  parts : List PartPtr
  excerpts : List (List PartPtr)
  isMaster : Bool
  staves : List StaffPtr
deriving DecidableEq, Repr

/-- The document: the score returned by `score()`, the one returned by
`score()->masterScore()`, and the objects behind the addresses. -/
structure Doc where
  score : ScoreObj
  masterScore : ScoreObj
  partObj : PartPtr → PartObj
  instrumentObj : InstrumentPtr → InstrumentObj
  staffObj : StaffPtr → StaffObj

/-- Modelled from the spec: `Ms::Score::staff(int)` is host code that is not in
this file; it is the staff at that index of the score, and null at an index at
which the score has no staff. -/
def ScoreObj.staff (s : ScoreObj) (n : Int) : Option StaffPtr :=
  if 0 ≤ n then s.staves[n.toNat]? else none

/-- Modelled from the spec: `Ms::Part::staff(int)` and `QList::at` are host code
that is not in this file; they index the part's staff list, and reading an index
the list does not have is undefined (`none` here, a fault at the call site). -/
def PartObj.staff (p : PartObj) (i : Int) : Option StaffPtr :=
  if 0 ≤ i then p.staves[i.toNat]? else none

/-! ## Queries -/

/-- Embedding of `NotationParts::scoreParts`. -/
def scoreParts (score : ScoreObj) : List PartPtr :=
  score.parts.foldl (fun result part => result ++ [part]) []

/-- Embedding of `NotationParts::excerptParts`. -/
def excerptParts (score : ScoreObj) : List PartPtr :=
  if !score.isMaster then
    []
  else
    score.excerpts.foldl
      (fun result excerpt => excerpt.foldl (fun result part => result ++ [part]) result) []

/-- The loop of `NotationParts::parts`: `result` and the set `partIds`. -/
def partsLoop (d : Doc) : List PartPtr → List PartPtr × List String → List PartPtr × List String
  | [], acc => acc
  | part :: rest, (result, partIds) =>
    if (d.partObj part).id ∈ partIds then
      partsLoop d rest (result, partIds)
    else
      partsLoop d rest (result ++ [part], (d.partObj part).id :: partIds)

/-- Embedding of `NotationParts::parts`. -/
def parts (d : Doc) : List PartPtr :=
  (partsLoop d (scoreParts d.score ++ excerptParts d.score) ([], [])).1

/-- The loop of `NotationParts::part`. -/
def partLoop (d : Doc) (partId : String) : List PartPtr → Option PartPtr
  | [] => none
  | part :: rest => if (d.partObj part).id = partId then some part else partLoop d partId rest

/-- Embedding of `NotationParts::part(partId, score)`; `score = none` is the null default. -/
def part (d : Doc) (partId : String) (score : Option ScoreObj) : Option PartPtr :=
  let score := match score with
    | none => d.score
    | some s => s
  partLoop d partId (scoreParts score ++ excerptParts score)

/-- The loop of `NotationParts::instrument(partId, instrumentId)`. -/
def instrumentLoop (d : Doc) (instrumentId : String) : List InstrumentPtr → Option InstrumentPtr
  | [] => none
  | it :: rest =>
    if (d.instrumentObj it).instrumentId = instrumentId then some it
    else instrumentLoop d instrumentId rest

/-- Embedding of `NotationParts::instrument(const QString&, const QString&)`. -/
def instrument (d : Doc) (partId instrumentId : String) : Option InstrumentPtr :=
  match part d partId none with
  | none => none
  | some part => instrumentLoop d instrumentId (d.partObj part).instruments

/-- Embedding of `NotationParts::instrumentList`. -/
def instrumentList (d : Doc) (partId : String) : List InstrumentPtr :=
  match part d partId none with
  | none => []
  | some part => (d.partObj part).instruments.foldl (fun result it => result ++ [it]) []

/-- The inner loop of `NotationParts::staffList`, over the local indices still
to visit: `result << part->staff(staffGlobalIndex + staffLocalIndex)`. -/
def staffListInner (part : PartObj) (staffGlobalIndex : Nat) :
    List Nat → List StaffPtr → Except Fault (List StaffPtr)
  | [], result => .ok result
  | staffLocalIndex :: rest, result =>
    match part.staff ((staffGlobalIndex : Int) + (staffLocalIndex : Int)) with
    | none => .error .indexOutOfRange
    | some s => staffListInner part staffGlobalIndex rest (result ++ [s])

/-- The outer loop of `NotationParts::staffList`. -/
def staffListLoop (d : Doc) (part : PartObj) (instrumentId : String) :
    List InstrumentPtr → Nat → Except Fault (List StaffPtr)
  | [], _ => .ok []
  | it :: rest, staffGlobalIndex =>
    if (d.instrumentObj it).instrumentId = instrumentId then
      staffListInner part staffGlobalIndex (List.range (d.instrumentObj it).nstaves) []
    else
      staffListLoop d part instrumentId rest (staffGlobalIndex + (d.instrumentObj it).nstaves)

/-- Embedding of `NotationParts::staffList`. -/
def staffList (d : Doc) (partId instrumentId : String) : Except Fault (List StaffPtr) :=
  match part d partId none with
  | none => .ok []
  | some part => staffListLoop d (d.partObj part) instrumentId (d.partObj part).instruments 0

/-- The inner loop of `NotationParts::instrument(const Staff*)`: is there a local
index whose staff has the `idx()` looked for? -/
def instrumentOfInner (d : Doc) (part : PartObj) (staffIdx : Int) (staffGlobalIndex : Nat) :
    List Nat → Except Fault Bool
  | [] => .ok false
  | staffLocalIndex :: rest =>
    match part.staff ((staffGlobalIndex : Int) + (staffLocalIndex : Int)) with
    | none => .error .indexOutOfRange
    | some s =>
      if (d.staffObj s).idx = staffIdx then .ok true
      else instrumentOfInner d part staffIdx staffGlobalIndex rest

/-- The outer loop of `NotationParts::instrument(const Staff*)`. -/
def instrumentOfLoop (d : Doc) (part : PartObj) (staffIdx : Int) :
    List InstrumentPtr → Nat → Except Fault (Option InstrumentPtr)
  | [], _ => .ok none
  | it :: rest, staffGlobalIndex =>
    match instrumentOfInner d part staffIdx staffGlobalIndex
        (List.range (d.instrumentObj it).nstaves) with
    | .error f => .error f
    | .ok true => .ok (some it)
    | .ok false =>
      instrumentOfLoop d part staffIdx rest (staffGlobalIndex + (d.instrumentObj it).nstaves)

/-- Embedding of `NotationParts::instrument(const Staff*)`. -/
def instrumentOf (d : Doc) (staff : Option StaffPtr) : Except Fault (Option InstrumentPtr) :=
  match staff with
  | none => .ok none
  | some staff =>
    match (d.staffObj staff).part with
    | none => .ok none
    | some part =>
      instrumentOfLoop d (d.partObj part) (d.staffObj staff).idx (d.partObj part).instruments 0

/-- Embedding of `NotationParts::staff`. -/
def staff (d : Doc) (staffIndex : Int) : Option StaffPtr :=
  d.score.staff staffIndex

/-! ## Host calls, events and the state of an operation -/

/-- Property ids of `Ms::Pid` used by this file. -/
inductive Pid where
  | VISIBLE
  | PLAYBACK_VOICE1
  | PLAYBACK_VOICE2
  | PLAYBACK_VOICE3
  | PLAYBACK_VOICE4
deriving DecidableEq, Repr

/-- The calls by which this file changes the host document. -/
inductive Change where
  /-- The call `part->undoChangeProperty(pid, value)`. -/
  | partUndoChangeProperty (part : PartPtr) (pid : Pid) (value : Bool)
  /-- The call `staff->undoChangeProperty(pid, value)`. -/
  | staffUndoChangeProperty (staff : StaffPtr) (pid : Pid) (value : Bool)
  /-- The call `staff->setInvisible(value)`. -/
  | setInvisible (staff : StaffPtr) (value : Bool)
  /-- The call `staff->setCutaway(value)`. -/
  | setCutaway (staff : StaffPtr) (value : Bool)
  /-- The call `staff->setPlaybackVoice(voiceIndex, value)`. -/
  | setPlaybackVoice (staff : StaffPtr) (voiceIndex : Int) (value : Bool)
  /-- The call `staffType->setSmall(value)`. -/
  | setSmall (staffType : StaffTypePtr) (value : Bool)
  /-- The call `score()->undo(new Ms::ChangeStaff(staff))`. -/
  | undoChangeStaff (staff : StaffPtr)
  /-- The call `score()->undo(new Ms::ChangeStaffType(staff, *staffType))`. -/
  | undoChangeStaffType (staff : StaffPtr) (staffType : StaffTypePtr)
  /-- The call `source->clone()`, giving the staff at `result`. -/
  | clone (source result : StaffPtr)
  /-- The call `new Staff(score())`, giving the staff at `result`. -/
  | newStaff (result : StaffPtr)
  /-- The call `staff->setPart(part)`. -/
  | setPart (staff : StaffPtr) (part : PartPtr)
  /-- The call `staff->linkTo(other)`. -/
  | linkTo (staff other : StaffPtr)
  /-- The call `staff->init(other)`. -/
  | init (staff other : StaffPtr)
  /-- The call `score()->undoInsertStaff(staff, idx)`. -/
  | undoInsertStaff (staff : StaffPtr) (idx : Int)
  /-- The call `score()->undoRemoveStaff(staff)`. -/
  | undoRemoveStaff (staff : StaffPtr)
  /-- The call `score()->undoRemovePart(part, idx)`. -/
  | undoRemovePart (part : Option PartPtr) (idx : Int)
  /-- The call `score()->cmdRemoveStaff(idx)`. -/
  | cmdRemoveStaff (idx : Int)
  /-- The call `instrument->setClefType(staffIdx, clef)`. -/
  | setClefType (instrument : InstrumentPtr) (staffIdx : Int) (clef : Nat)
  /-- The call `part->insertStaff(staff, idx)`. -/
  | partInsertStaff (part : PartPtr) (staff : StaffPtr) (idx : Int)
  /-- The call `score()->staves().append(staff)`. -/
  | scoreStavesAppend (staff : StaffPtr)
  /-- The call `score()->appendPart(part)`. -/
  | scoreAppendPart (part : PartPtr)
deriving DecidableEq, Repr

/-- One entry of the log of an operation, in the order of issue. -/
inductive Entry where
  /-- The call `masterScore()->startCmd()`. -/
  | startCmd
  /-- The call `masterScore()->endCmd()`. -/
  | endCmd
  /-- A change applied to the document. -/
  | change (c : Change)
  /-- The call `m_partChanged.send(part)`. -/
  | partChanged (part : Option PartPtr)
  /-- The call `m_instrumentChanged.send(instrument)`. -/
  | instrumentChanged (instrument : Option InstrumentPtr)
  /-- The call `m_staffChanged.send(staff)`. -/
  | staffChanged (staff : StaffPtr)
  /-- The call `m_partsChanged.notify()`. -/
  | partsChanged
deriving DecidableEq, Repr

/-- The host engine, as far as this file depends on it: how a change to the
structure of the document alters what is read afterwards, the address of the
next staff object, the presets of `Ms::StaffType::preset`, and
`Ms::Score::staffIdx(part)`. -/
structure Host where
  apply : Doc → Change → Doc
  newStaff : Doc → StaffPtr
  preset : Nat → Option StaffTypePtr
  staffIdx : Doc → Option PartPtr → Int

/-- State of an operation: the document as read by the queries, and the log of
the calls and events issued so far. -/
structure St where
  doc : Doc
  log : List Entry

/-- Issue a call or an event that leaves what the queries read as it is:
transaction brackets, notifications, and writes of properties that this file
never reads back. -/
def record (e : Entry) (st : St) : St :=
  { doc := st.doc, log := st.log ++ [e] }

/-- Issue a change to the structure of the document: the host decides what the
queries read afterwards. -/
def alter (h : Host) (c : Change) (st : St) : St :=
  { doc := h.apply st.doc c, log := st.log ++ [.change c] }

/-! ## Mutating operations -/

/-- The loop body of `NotationParts::appendPart`, over the staves the part had
when the range-for started. -/
def appendPartLoop (h : Host) (part : PartPtr) : List StaffPtr → St → St
  | [], st => st
  | partStaff :: rest, st =>
    let staff := h.newStaff st.doc
    let st := alter h (.newStaff staff) st
    let st := alter h (.setPart staff part) st
    let st := alter h (.init staff partStaff) st
    let st :=
      if (st.doc.staffObj partStaff).links then
        match (st.doc.partObj part).staves.getLast? with
        | none => st
        | some linkedStaff => alter h (.linkTo staff linkedStaff) st
      else st
    let st := alter h (.partInsertStaff part staff (-1)) st
    let st := alter h (.scoreStavesAppend staff) st
    appendPartLoop h part rest st

/-- Embedding of `NotationParts::appendPart`. -/
def appendPart (h : Host) (part : PartPtr) (st : St) : St :=
  let st := appendPartLoop h part (st.doc.partObj part).staves st
  alter h (.scoreAppendPart part) st

/-- Embedding of `NotationParts::setPartVisible`. -/
def setPartVisible (h : Host) (partId : String) (visible : Bool) (st : St) : St :=
  match part st.doc partId none with
  | none =>
    match part st.doc partId (some st.doc.masterScore) with
    | none => st
    | some part =>
      let st := appendPart h part st
      record .partsChanged st
  | some part =>
    let st := record .startCmd st
    let st := record (.change (.partUndoChangeProperty part .VISIBLE visible)) st
    let st := record .endCmd st
    let st := record (.partChanged (some part)) st
    record .partsChanged st

/-- Embedding of `NotationParts::setStaffVisible`. -/
def setStaffVisible (staffIndex : Int) (visible : Bool) (st : St) : St :=
  match staff st.doc staffIndex with
  | none => st
  | some staff =>
    let st := record (.change (.setInvisible staff (!visible))) st
    let st := record (.change (.undoChangeStaff staff)) st
    let st := record .endCmd st
    let st := record (.staffChanged staff) st
    record .partsChanged st

/-- The loop of `NotationParts::setInstrumentVisible`. -/
def setInstrumentVisibleLoop (instrumentId : String) (visible : Bool) :
    List InstrumentPtr → Nat → St → St
  | [], _, st => st
  | it :: rest, staffGlobalIndex, st =>
    if (st.doc.instrumentObj it).instrumentId = instrumentId then
      let st := (List.range (st.doc.instrumentObj it).nstaves).foldl
        (fun st staffLocalIndex =>
          setStaffVisible ((staffGlobalIndex : Int) + (staffLocalIndex : Int)) visible st) st
      let st := record .endCmd st
      let st := record (.instrumentChanged (some it)) st
      record .partsChanged st
    else
      setInstrumentVisibleLoop instrumentId visible rest
        (staffGlobalIndex + (st.doc.instrumentObj it).nstaves) st

/-- Embedding of `NotationParts::setInstrumentVisible`. -/
def setInstrumentVisible (partId instrumentId : String) (visible : Bool) (st : St) : St :=
  match part st.doc partId none with
  | none => st
  | some part =>
    let st := record .startCmd st
    setInstrumentVisibleLoop instrumentId visible (st.doc.partObj part).instruments 0 st

/-- Embedding of `NotationParts::setStaffType`. -/
def setStaffType (h : Host) (staffIndex : Int) (type : Nat) (st : St) : St :=
  match staff st.doc staffIndex, h.preset type with
  | some staff, some staffType =>
    let st := record (.change (.undoChangeStaffType staff staffType)) st
    let st := record .endCmd st
    let st := record (.staffChanged staff) st
    record .partsChanged st
  | _, _ => st

/-- Embedding of `NotationParts::setCutaway`. -/
def setCutaway (staffIndex : Int) (value : Bool) (st : St) : St :=
  match staff st.doc staffIndex with
  | none => st
  | some staff =>
    let st := record (.change (.setCutaway staff value)) st
    let st := record (.change (.undoChangeStaff staff)) st
    let st := record .endCmd st
    let st := record (.staffChanged staff) st
    record .partsChanged st

/-- Embedding of `NotationParts::setSmallStaff`: `staff->staffType(...)` is evaluated before
`staff` is tested. -/
def setSmallStaff (staffIndex : Int) (value : Bool) (st : St) : Except Fault St :=
  match staff st.doc staffIndex with
  | none => .error .nullDereference
  | some staff =>
    match (st.doc.staffObj staff).staffType with
    | none => .ok st
    | some staffType =>
      let st := record (.change (.setSmall staffType value)) st
      let st := record (.change (.undoChangeStaffType staff staffType)) st
      let st := record .endCmd st
      let st := record (.staffChanged staff) st
      .ok (record .partsChanged st)

/-- Embedding of `NotationParts::setVoiceVisible`. -/
def setVoiceVisible (staffIndex voiceIndex : Int) (visible : Bool) (st : St) : St :=
  match staff st.doc staffIndex with
  | none => st
  | some staff =>
    let st := record (.change (.setPlaybackVoice staff voiceIndex visible)) st
    let st :=
      if voiceIndex = 0 then
        record (.change (.staffUndoChangeProperty staff .PLAYBACK_VOICE1 visible)) st
      else if voiceIndex = 1 then
        record (.change (.staffUndoChangeProperty staff .PLAYBACK_VOICE2 visible)) st
      else if voiceIndex = 2 then
        record (.change (.staffUndoChangeProperty staff .PLAYBACK_VOICE3 visible)) st
      else if voiceIndex = 3 then
        record (.change (.staffUndoChangeProperty staff .PLAYBACK_VOICE4 visible)) st
      else st
    let st := record .endCmd st
    let st := record (.staffChanged staff) st
    record .partsChanged st

/-- The loop of `NotationParts::appendStaff`. -/
def appendStaffLoop (h : Host) (part : PartPtr) (instrumentId : String) :
    List InstrumentPtr → Nat → St → Except Fault (Option StaffPtr × St)
  | [], _, st => .ok (none, st)
  | it :: rest, staffGlobalIndex, st =>
    if (st.doc.instrumentObj it).instrumentId = instrumentId then
      let lastStaffLocalIndex : Int := ((st.doc.instrumentObj it).nstaves : Int) - 1
      match (st.doc.partObj part).staff ((staffGlobalIndex : Int) + lastStaffLocalIndex) with
      | none => .error .indexOutOfRange
      | some last =>
        let lastStaffGlobalIndex := (st.doc.staffObj last).idx
        let staff := h.newStaff st.doc
        let st := alter h (.clone last staff) st
        let st := alter h (.undoInsertStaff staff (lastStaffGlobalIndex + 1)) st
        let st := alter h (.setClefType it
          ((staffGlobalIndex : Int) + ((st.doc.instrumentObj it).nstaves : Int))
          (st.doc.staffObj staff).defaultClefType) st
        let st := record .endCmd st
        let st := record (.instrumentChanged (some it)) st
        let st := record .partsChanged st
        .ok (some staff, st)
    else
      appendStaffLoop h part instrumentId rest
        (staffGlobalIndex + (st.doc.instrumentObj it).nstaves) st

/-- Embedding of `NotationParts::appendStaff`. -/
def appendStaff (h : Host) (partId instrumentId : String) (st : St) :
    Except Fault (Option StaffPtr × St) :=
  match part st.doc partId none with
  | none => .ok (none, st)
  | some part =>
    let st := record .startCmd st
    appendStaffLoop h part instrumentId (st.doc.partObj part).instruments 0 st

/-- Embedding of `NotationParts::appendLinkedStaff`. -/
def appendLinkedStaff (h : Host) (staffIndex : Int) (st : St) :
    Except Fault (Option StaffPtr × St) :=
  match staff st.doc staffIndex with
  | none => .ok (none, st)
  | some staff =>
    match (st.doc.staffObj staff).part with
    | none => .ok (none, st)
    | some part =>
      let linkedStaff := h.newStaff st.doc
      let st := alter h (.newStaff linkedStaff) st
      let st := alter h (.setPart linkedStaff part) st
      let st := alter h (.linkTo linkedStaff staff) st
      match (st.doc.partObj part).staves.getLast? with
      | none => .error .indexOutOfRange
      | some last =>
        let linkedStaffIndex := (st.doc.staffObj last).idx
        let st := alter h (.undoInsertStaff linkedStaff linkedStaffIndex) st
        let st := record .endCmd st
        match instrumentOf st.doc (some linkedStaff) with
        | .error f => .error f
        | .ok instrument =>
          let st := record (.instrumentChanged instrument) st
          let st := record .partsChanged st
          .ok (some linkedStaff, st)

/-- The loop of `NotationParts::removeParts`. -/
def removePartsLoop (h : Host) : List String → St → St
  | [], st => st
  | partId :: rest, st =>
    let part := part st.doc partId none
    let firstStaffIndex := h.staffIdx st.doc part
    let st := alter h (.undoRemovePart part firstStaffIndex) st
    let st := record (.partChanged part) st
    removePartsLoop h rest st

/-- Embedding of `NotationParts::removeParts`. -/
def removeParts (h : Host) (partsIds : List String) (st : St) : St :=
  if partsIds.isEmpty then
    st
  else
    let st := record .startCmd st
    let st := removePartsLoop h partsIds st
    let st := record .endCmd st
    record .partsChanged st

/-- The loop of `NotationParts::removeStaves`. -/
def removeStavesLoop (h : Host) : List Int → St → Except Fault St
  | [], st => .ok st
  | staffIndex :: rest, st =>
    let staff := staff st.doc staffIndex
    match instrumentOf st.doc staff with
    | .error f => .error f
    | .ok instrument =>
      let st := alter h (.cmdRemoveStaff staffIndex) st
      let st := record (.instrumentChanged instrument) st
      removeStavesLoop h rest st

/-- Embedding of `NotationParts::removeStaves`. -/
def removeStaves (h : Host) (stavesIndexes : List Int) (st : St) : Except Fault St :=
  if stavesIndexes.isEmpty then
    .ok st
  else
    let st := record .startCmd st
    match removeStavesLoop h stavesIndexes st with
    | .error f => .error f
    | .ok st =>
      let st := record .endCmd st
      .ok (record .partsChanged st)

/-- Embedding of `NotationParts::moveStaff`. -/
def moveStaff (h : Host) (fromIndex toIndex : Int) (st : St) : Except Fault St :=
  match staff st.doc fromIndex with
  | none => .ok st
  | some staff =>
    match instrumentOf st.doc (some staff) with
    | .error f => .error f
    | .ok fromInstrument =>
      let st := alter h (.undoRemoveStaff staff) st
      let st := alter h (.undoInsertStaff staff toIndex) st
      let st := record .endCmd st
      match instrumentOf st.doc (some staff) with
      | .error f => .error f
      | .ok toInstrument =>
        let st := record (.instrumentChanged fromInstrument) st
        let st := record (.instrumentChanged toInstrument) st
        .ok (record .partsChanged st)

/-! ## Reading a log -/

/-- Number of `startCmd` calls in a log. -/
def countStartCmd (log : List Entry) : Nat :=
  log.count .startCmd

/-- Number of `endCmd` calls in a log. -/
def countEndCmd (log : List Entry) : Nat :=
  log.count .endCmd

/-- The staves on which a log calls `setInvisible(value)`, in order. -/
def invisibleSetTo (value : Bool) : List Entry → List StaffPtr
  | [] => []
  | .change (.setInvisible s v) :: rest =>
    if v = value then s :: invisibleSetTo value rest else invisibleSetTo value rest
  | _ :: rest => invisibleSetTo value rest

/-! ## The listing of parts, as the specification words it -/

/-- Specification: the score's own parts followed by the parts of all its
excerpts, the latter only when the score is a master score. -/
def candidateParts (score : ScoreObj) : List PartPtr :=
  score.parts ++ (if score.isMaster then score.excerpts.flatten else [])

/-- Specification: the list with every element removed whose id already
occurred earlier (`earlier` holds the elements that came before). -/
def firstOccurrences (idOf : PartPtr → String) : List PartPtr → List PartPtr → List PartPtr
  | _, [] => []
  | earlier, p :: rest =>
    if idOf p ∈ earlier.map idOf then
      firstOccurrences idOf (earlier ++ [p]) rest
    else
      p :: firstOccurrences idOf (earlier ++ [p]) rest

/-! ## Concrete documents -/

/-- A master score with a one-staff flute part, a two-staff piano part, and one
excerpt holding a second flute part. -/
def duoScore : ScoreObj :=
  { parts := [0, 1], excerpts := [[2]], isMaster := true, staves := [0, 1, 2] }

/-- The document of `duoScore`: parts 0 (flute, staff 0), 1 (piano, staves 1
and 2) and 2 (the excerpt's flute, staff 3). -/
def duoDoc : Doc :=
  { score := duoScore
    masterScore := duoScore
    partObj := fun p =>
      if p = 0 then { id := "flute", instruments := [0], staves := [0] }
      else if p = 1 then { id := "piano", instruments := [1], staves := [1, 2] }
      else { id := "flute", instruments := [0], staves := [3] }
    instrumentObj := fun i =>
      if i = 0 then { instrumentId := "flute", nstaves := 1 }
      else { instrumentId := "piano", nstaves := 2 }
    staffObj := fun s =>
      { idx := s
        part := some (if s = 0 then 0 else if s ≤ 2 then 1 else 2)
        staffType := some s
        links := false
        defaultClefType := 0 } }

/-- A score with the single part 0, `p`, whose instruments are `a` (instrument
0, one staff) and `b` (instrument 1, two staves), and whose staves, also those
of the score, are the given ones. -/
def pairDoc (staves : List StaffPtr) : Doc :=
  { score := { parts := [0], excerpts := [], isMaster := true, staves := staves }
    masterScore := { parts := [0], excerpts := [], isMaster := true, staves := staves }
    partObj := fun _ => { id := "p", instruments := [0, 1], staves := staves }
    instrumentObj := fun i =>
      if i = 0 then { instrumentId := "a", nstaves := 1 }
      else { instrumentId := "b", nstaves := 2 }
    staffObj := fun s =>
      { idx := s, part := some 0, staffType := some s, links := false, defaultClefType := 0 } }

/-- A host whose structural changes leave the document as it is. -/
def idleHost : Host :=
  { apply := fun d _ => d
    newStaff := fun d => d.score.staves.length
    preset := fun t => some t
    staffIdx := fun _ _ => 0 }

/-! ## Lemmas on the queries -/

theorem foldl_push {α : Type} (l acc : List α) :
    l.foldl (fun result x => result ++ [x]) acc = acc ++ l := by
  induction l generalizing acc with
  | nil => simp
  | cons x xs ih => simp [ih]

theorem scoreParts_eq (score : ScoreObj) : scoreParts score = score.parts := by
  simp [scoreParts, foldl_push]

theorem foldl_excerpts (ls : List (List PartPtr)) (acc : List PartPtr) :
    ls.foldl (fun result excerpt => excerpt.foldl (fun result part => result ++ [part]) result) acc
      = acc ++ ls.flatten := by
  induction ls generalizing acc with
  | nil => simp
  | cons x xs ih => rw [List.foldl_cons, foldl_push, ih]; simp

theorem excerptParts_eq (score : ScoreObj) :
    excerptParts score = if score.isMaster then score.excerpts.flatten else [] := by
  unfold excerptParts
  cases score.isMaster <;> simp [foldl_excerpts]

theorem allParts_eq (score : ScoreObj) :
    scoreParts score ++ excerptParts score = candidateParts score := by
  rw [scoreParts_eq, excerptParts_eq, candidateParts]

theorem partsLoop_eq (d : Doc) (l : List PartPtr) :
    ∀ (result : List PartPtr) (partIds : List String) (earlier : List PartPtr),
      (∀ x, x ∈ partIds ↔ x ∈ earlier.map (fun p => (d.partObj p).id)) →
      (partsLoop d l (result, partIds)).1
        = result ++ firstOccurrences (fun p => (d.partObj p).id) earlier l := by
  induction l with
  | nil => intro result partIds earlier _; simp [partsLoop, firstOccurrences]
  | cons p rest ih =>
    intro result partIds earlier hinv
    by_cases hp : (d.partObj p).id ∈ partIds
    · have hp2 := (hinv _).mp hp
      rw [partsLoop, if_pos hp, firstOccurrences, if_pos hp2]
      apply ih
      intro x
      rw [hinv x]
      simp only [List.map_append, List.mem_append, List.map_cons, List.map_nil,
        List.mem_singleton]
      constructor
      · intro hx; exact Or.inl hx
      · rintro (hx | hx)
        · exact hx
        · rw [hx]; exact hp2
    · have hp2 : ¬ (d.partObj p).id ∈ earlier.map (fun p => (d.partObj p).id) :=
        fun hc => hp ((hinv _).mpr hc)
      rw [partsLoop, if_neg hp, firstOccurrences, if_neg hp2]
      rw [ih (result ++ [p]) ((d.partObj p).id :: partIds) (earlier ++ [p])]
      · simp
      · intro x
        rw [List.mem_cons, hinv x]
        simp [or_comm]

theorem parts_eq (d : Doc) :
    parts d = firstOccurrences (fun p => (d.partObj p).id) [] (candidateParts d.score) := by
  unfold parts
  rw [allParts_eq, partsLoop_eq d _ [] [] []]
  · simp
  · intro x; simp

theorem firstOccurrences_sublist (idOf : PartPtr → String) (l : List PartPtr) :
    ∀ earlier, (firstOccurrences idOf earlier l).Sublist l := by
  induction l with
  | nil => intro earlier; simp [firstOccurrences]
  | cons p rest ih =>
    intro earlier
    rw [firstOccurrences]
    split
    · exact (ih _).cons p
    · exact (ih _).cons₂ p

theorem firstOccurrences_fresh (idOf : PartPtr → String) (l : List PartPtr) :
    ∀ earlier, ∀ q ∈ firstOccurrences idOf earlier l, idOf q ∉ earlier.map idOf := by
  induction l with
  | nil => intro earlier q hq; simp [firstOccurrences] at hq
  | cons p rest ih =>
    intro earlier q hq
    rw [firstOccurrences] at hq
    split at hq
    · intro hc
      exact ih _ q hq (by simp only [List.map_append, List.mem_append]; exact Or.inl hc)
    · rename_i hp
      rcases List.mem_cons.mp hq with rfl | hq
      · exact hp
      · intro hc
        exact ih _ q hq (by simp only [List.map_append, List.mem_append]; exact Or.inl hc)

theorem firstOccurrences_nodup (idOf : PartPtr → String) (l : List PartPtr) :
    ∀ earlier, ((firstOccurrences idOf earlier l).map idOf).Nodup := by
  induction l with
  | nil => intro earlier; simp [firstOccurrences]
  | cons p rest ih =>
    intro earlier
    rw [firstOccurrences]
    split
    · exact ih _
    · rw [List.map_cons, List.nodup_cons]
      refine ⟨?_, ih _⟩
      intro hc
      obtain ⟨q, hq, hqp⟩ := List.mem_map.mp hc
      apply firstOccurrences_fresh idOf rest (earlier ++ [p]) q hq
      simp [hqp]

theorem firstOccurrences_covers (idOf : PartPtr → String) (l : List PartPtr) :
    ∀ earlier, ∀ p ∈ l,
      idOf p ∈ earlier.map idOf ∨ idOf p ∈ (firstOccurrences idOf earlier l).map idOf := by
  induction l with
  | nil => intro earlier p hp; simp at hp
  | cons a rest ih =>
    intro earlier p hp
    rw [firstOccurrences]
    rcases List.mem_cons.mp hp with rfl | hp
    · split
      · rename_i h; exact Or.inl h
      · right; simp
    · rcases ih (earlier ++ [a]) p hp with h | h
      · simp only [List.map_append, List.mem_append, List.map_cons, List.map_nil,
          List.mem_singleton] at h
        rcases h with h | h
        · exact Or.inl h
        · split
          · rename_i ha; left; rw [h]; exact ha
          · right; simp [h]
      · split
        · exact Or.inr h
        · right; simp only [List.map_cons, List.mem_cons]; exact Or.inr h

theorem partLoop_eq_find (d : Doc) (partId : String) (l : List PartPtr) :
    partLoop d partId l = l.find? (fun p => decide ((d.partObj p).id = partId)) := by
  induction l with
  | nil => rfl
  | cons p rest ih =>
    rw [partLoop, List.find?_cons]
    by_cases hp : (d.partObj p).id = partId
    · simp [hp]
    · simp [hp, ih]

theorem find_firstOccurrences (idOf : PartPtr → String) (x : String) (l : List PartPtr) :
    ∀ earlier, x ∉ earlier.map idOf →
      (firstOccurrences idOf earlier l).find? (fun p => decide (idOf p = x))
        = l.find? (fun p => decide (idOf p = x)) := by
  induction l with
  | nil => intro earlier _; simp [firstOccurrences]
  | cons p rest ih =>
    intro earlier hx
    rw [firstOccurrences]
    by_cases hpx : idOf p = x
    · have hp : ¬ idOf p ∈ earlier.map idOf := by rw [hpx]; exact hx
      rw [if_neg hp]
      simp [hpx]
    · have hx2 : x ∉ (earlier ++ [p]).map idOf := by
        simp only [List.map_append, List.mem_append, List.map_cons, List.map_nil,
          List.mem_singleton, not_or]
        exact ⟨hx, fun h => hpx h.symm⟩
      split
      · rw [ih _ hx2]; simp [hpx]
      · rw [List.find?_cons, List.find?_cons]
        simp [hpx, ih _ hx2]

theorem part_eq_find_parts (d : Doc) (partId : String) :
    part d partId none = (parts d).find? (fun p => decide ((d.partObj p).id = partId)) := by
  unfold part
  simp only []
  rw [allParts_eq, partLoop_eq_find, parts_eq]
  exact (find_firstOccurrences (fun p => (d.partObj p).id) partId _ [] (by simp)).symm

theorem partStaff_natCast (p : PartObj) (g l : Nat) :
    p.staff ((g : Int) + (l : Int)) = p.staves[g + l]? := by
  have h : ((g : Int) + (l : Int)) = ((g + l : Nat) : Int) := by push_cast; rfl
  rw [h, PartObj.staff, if_pos (Int.ofNat_nonneg _), Int.toNat_ofNat]

theorem filterMap_range_eq_slice {α : Type} (xs : List α) (g n : Nat) :
    (List.range n).filterMap (fun l => xs[g + l]?) = (xs.drop g).take n := by
  induction n with
  | zero => simp
  | succ n ih =>
    rw [List.range_succ, List.filterMap_append, ih, List.take_succ, List.getElem?_drop]
    congr 1

theorem staffListInner_ok (part : PartObj) (g : Nat) (ls : List Nat) :
    ∀ result, (∀ l ∈ ls, g + l < part.staves.length) →
      staffListInner part g ls result
        = .ok (result ++ ls.filterMap (fun l => part.staves[g + l]?)) := by
  induction ls with
  | nil => intro result _; simp [staffListInner]
  | cons l rest ih =>
    intro result hb
    have hl : g + l < part.staves.length := hb l (List.mem_cons_self _ _)
    rw [staffListInner, partStaff_natCast, List.getElem?_eq_getElem hl]
    simp only []
    rw [ih _ (fun x hx => hb x (List.mem_cons_of_mem _ hx))]
    simp [List.getElem?_eq_getElem hl]

theorem staffListLoop_none (d : Doc) (part : PartObj) (instrumentId : String)
    (l : List InstrumentPtr) :
    ∀ g, (∀ it ∈ l, (d.instrumentObj it).instrumentId ≠ instrumentId) →
      staffListLoop d part instrumentId l g = .ok [] := by
  induction l with
  | nil => intro g _; rfl
  | cons it rest ih =>
    intro g hne
    rw [staffListLoop, if_neg (hne it (List.mem_cons_self _ _))]
    exact ih _ (fun x hx => hne x (List.mem_cons_of_mem _ hx))

theorem staffListLoop_skip (d : Doc) (part : PartObj) (instrumentId : String)
    (pre : List InstrumentPtr) (l : List InstrumentPtr) :
    ∀ g, (∀ it ∈ pre, (d.instrumentObj it).instrumentId ≠ instrumentId) →
      staffListLoop d part instrumentId (pre ++ l) g
        = staffListLoop d part instrumentId l
            (g + (pre.map (fun it => (d.instrumentObj it).nstaves)).sum) := by
  induction pre with
  | nil => intro g _; simp
  | cons it rest ih =>
    intro g hne
    rw [List.cons_append, staffListLoop, if_neg (hne it (List.mem_cons_self _ _)),
      ih _ (fun x hx => hne x (List.mem_cons_of_mem _ hx))]
    simp [Nat.add_assoc]

theorem instrumentLoop_skip (d : Doc) (instrumentId : String)
    (pre : List InstrumentPtr) (l : List InstrumentPtr) :
    (∀ it ∈ pre, (d.instrumentObj it).instrumentId ≠ instrumentId) →
      instrumentLoop d instrumentId (pre ++ l) = instrumentLoop d instrumentId l := by
  induction pre with
  | nil => intro _; simp
  | cons it rest ih =>
    intro hne
    rw [List.cons_append, instrumentLoop, if_neg (hne it (List.mem_cons_self _ _)),
      ih (fun x hx => hne x (List.mem_cons_of_mem _ hx))]

theorem instrumentOfInner_false (d : Doc) (part : PartObj) (x : Int) (g : Nat) (ls : List Nat) :
    (∀ l ∈ ls, ∃ s, part.staves[g + l]? = some s ∧ (d.staffObj s).idx ≠ x) →
      instrumentOfInner d part x g ls = .ok false := by
  induction ls with
  | nil => intro _; rfl
  | cons a rest ih =>
    intro hall
    obtain ⟨s, hs, hne⟩ := hall a (List.mem_cons_self _ _)
    rw [instrumentOfInner, partStaff_natCast, hs]
    simp only []
    rw [if_neg hne]
    exact ih (fun l hl => hall l (List.mem_cons_of_mem _ hl))

theorem instrumentOfInner_true (d : Doc) (part : PartObj) (x : Int) (g : Nat) (ls : List Nat) :
    (∀ l ∈ ls, g + l < part.staves.length) →
    (∃ l ∈ ls, ∃ s, part.staves[g + l]? = some s ∧ (d.staffObj s).idx = x) →
      instrumentOfInner d part x g ls = .ok true := by
  induction ls with
  | nil => intro _ hex; obtain ⟨l, hl, _⟩ := hex; simp at hl
  | cons a rest ih =>
    intro hb hex
    have ha : g + a < part.staves.length := hb a (List.mem_cons_self _ _)
    rw [instrumentOfInner, partStaff_natCast, List.getElem?_eq_getElem ha]
    simp only []
    by_cases hx : (d.staffObj part.staves[g + a]).idx = x
    · rw [if_pos hx]
    · rw [if_neg hx]
      apply ih (fun l hl => hb l (List.mem_cons_of_mem _ hl))
      obtain ⟨l, hl, s, hs, hsx⟩ := hex
      rcases List.mem_cons.mp hl with rfl | hl
      · rw [List.getElem?_eq_getElem ha] at hs
        cases hs
        exact absurd hsx hx
      · exact ⟨l, hl, s, hs, hsx⟩

theorem idx_position_unique (d : Doc) (part : PartObj)
    (hidx : (part.staves.map (fun s => (d.staffObj s).idx)).Nodup)
    (i j : Nat) (s t : StaffPtr) (hs : part.staves[i]? = some s) (ht : part.staves[j]? = some t)
    (heq : (d.staffObj s).idx = (d.staffObj t).idx) : i = j := by
  obtain ⟨hi, hsi⟩ := List.getElem?_eq_some_iff.mp hs
  obtain ⟨hj, htj⟩ := List.getElem?_eq_some_iff.mp ht
  have hi2 : i < (part.staves.map (fun s => (d.staffObj s).idx)).length := by simpa using hi
  have hj2 : j < (part.staves.map (fun s => (d.staffObj s).idx)).length := by simpa using hj
  have key : (part.staves.map (fun s => (d.staffObj s).idx))[i]
      = (part.staves.map (fun s => (d.staffObj s).idx))[j] := by
    rw [List.getElem_map, List.getElem_map, hsi, htj]
    exact heq
  exact (List.Nodup.getElem_inj_iff hidx).mp key

theorem instrumentOfLoop_inverts (d : Doc) (part : PartObj) (instrumentId : String)
    (hidx : (part.staves.map (fun s => (d.staffObj s).idx)).Nodup)
    (l : List InstrumentPtr) :
    ∀ g, g + (l.map (fun it => (d.instrumentObj it).nstaves)).sum ≤ part.staves.length →
      ∃ r, staffListLoop d part instrumentId l g = .ok r ∧
        ∀ s ∈ r, (∃ j, g ≤ j ∧ part.staves[j]? = some s) ∧
          instrumentOfLoop d part (d.staffObj s).idx l g
            = .ok (instrumentLoop d instrumentId l) := by
  induction l with
  | nil => intro g _; exact ⟨[], rfl, fun s hs => by simp at hs⟩
  | cons it rest ih =>
    intro g hsum
    rw [List.map_cons, List.sum_cons] at hsum
    have hrange : ∀ k ∈ List.range (d.instrumentObj it).nstaves, g + k < part.staves.length := by
      intro k hk
      have := List.mem_range.mp hk
      omega
    by_cases hid : (d.instrumentObj it).instrumentId = instrumentId
    · refine ⟨[] ++ (List.range (d.instrumentObj it).nstaves).filterMap
          (fun k => part.staves[g + k]?), ?_, ?_⟩
      · rw [staffListLoop, if_pos hid, staffListInner_ok part g _ [] hrange]
      · intro s hs
        rw [List.nil_append] at hs
        obtain ⟨k, hk, hks⟩ := List.mem_filterMap.mp hs
        refine ⟨⟨g + k, Nat.le_add_right _ _, hks⟩, ?_⟩
        rw [instrumentOfLoop, instrumentOfInner_true d part _ g _ hrange ⟨k, hk, s, hks, rfl⟩,
          instrumentLoop, if_pos hid]
    · obtain ⟨r, hr, hall⟩ := ih (g + (d.instrumentObj it).nstaves) (by omega)
      refine ⟨r, ?_, ?_⟩
      · rw [staffListLoop, if_neg hid, hr]
      · intro s hs
        obtain ⟨⟨j, hj, hjs⟩, hloop⟩ := hall s hs
        refine ⟨⟨j, by omega, hjs⟩, ?_⟩
        have hfalse : instrumentOfInner d part (d.staffObj s).idx g
            (List.range (d.instrumentObj it).nstaves) = .ok false := by
          apply instrumentOfInner_false
          intro k hk
          have hk2 := List.mem_range.mp hk
          have hlt : g + k < part.staves.length := hrange k hk
          refine ⟨part.staves[g + k], List.getElem?_eq_getElem hlt, ?_⟩
          intro heq
          have := idx_position_unique d part hidx (g + k) j _ s
            (List.getElem?_eq_getElem hlt) hjs heq
          omega
        rw [instrumentOfLoop, hfalse, instrumentLoop, if_neg hid]
        exact hloop

/-! ## Claims on the queries -/

/-- C3: `parts()` lists each part once.  For every document the result equals
the score's own parts followed by the excerpt parts (the latter only for a
master score) with every element removed whose id already occurred earlier;
the ids of the result are pairwise distinct; the result keeps the order of the
concatenation and holds, for every id, the first element with that id; and every
id that occurs in the concatenation occurs in the result. -/
theorem parts_lists_each_part_once (d : Doc) :
    parts d = firstOccurrences (fun p => (d.partObj p).id) [] (candidateParts d.score)
    ∧ ((parts d).map (fun p => (d.partObj p).id)).Nodup
    ∧ (parts d).Sublist (candidateParts d.score)
    ∧ (∀ x : String, (parts d).find? (fun p => decide ((d.partObj p).id = x))
        = (candidateParts d.score).find? (fun p => decide ((d.partObj p).id = x)))
    ∧ (∀ p ∈ candidateParts d.score,
        (d.partObj p).id ∈ (parts d).map (fun p => (d.partObj p).id)) := by
  refine ⟨parts_eq d, ?_, ?_, ?_, ?_⟩
  · rw [parts_eq]; exact firstOccurrences_nodup _ _ _
  · rw [parts_eq]; exact firstOccurrences_sublist _ _ _
  · intro x
    rw [parts_eq]
    exact find_firstOccurrences (fun p => (d.partObj p).id) x _ [] (by simp)
  · intro p hp
    rw [parts_eq]
    rcases firstOccurrences_covers (fun p => (d.partObj p).id) _ [] p hp with h | h
    · simp at h
    · exact h

/-- Witness of C3 on `duoDoc`: the excerpt's flute part (2) repeats the id of
part 0 and is dropped, and its id is still listed. -/
theorem parts_lists_each_part_once_witness :
    parts duoDoc = [0, 1] ∧ 2 ∈ candidateParts duoDoc.score
      ∧ (duoDoc.partObj 2).id ∈ (parts duoDoc).map (fun p => (duoDoc.partObj p).id) :=
  ⟨by decide, by decide, (parts_lists_each_part_once duoDoc).2.2.2.2 2 (by decide)⟩

/-- C9: the part lookup agrees with the part listing.  For every document and
id, `part(id)` on the current score is null exactly when no element of `parts()`
has that id; when it is not null it is an element of `parts()` with that id and
the only one; and it is the first part with that id in score parts followed by
excerpt parts. -/
theorem part_agrees_with_parts (d : Doc) (partId : String) :
    (part d partId none = none ↔ ∀ p ∈ parts d, (d.partObj p).id ≠ partId)
    ∧ (∀ p, part d partId none = some p →
        p ∈ parts d ∧ (d.partObj p).id = partId
          ∧ ∀ q ∈ parts d, (d.partObj q).id = partId → q = p)
    ∧ part d partId none
        = (candidateParts d.score).find? (fun p => decide ((d.partObj p).id = partId)) := by
  refine ⟨?_, ?_, ?_⟩
  · rw [part_eq_find_parts, List.find?_eq_none]
    simp
  · intro p hp
    rw [part_eq_find_parts] at hp
    have hmem : p ∈ parts d := List.mem_of_find?_eq_some hp
    have hid : (d.partObj p).id = partId := by
      have := List.find?_some hp
      simpa using this
    refine ⟨hmem, hid, ?_⟩
    intro q hq hqid
    have hnodup : ((parts d).map (fun p => (d.partObj p).id)).Nodup := by
      rw [parts_eq]; exact firstOccurrences_nodup _ _ _
    exact List.inj_on_of_nodup_map hnodup hq hmem (hqid.trans hid.symm)
  · unfold part
    simp only []
    rw [allParts_eq, partLoop_eq_find]

/-- Witness of C9 on `duoDoc`: the id `flute` is carried by parts 0 and 2, the
lookup returns part 0, which is the one element of `parts()` with that id. -/
theorem part_agrees_with_parts_witness :
    part duoDoc "flute" none = some 0
      ∧ (0 ∈ parts duoDoc ∧ (duoDoc.partObj 0).id = "flute"
          ∧ ∀ q ∈ parts duoDoc, (duoDoc.partObj q).id = "flute" → q = 0) :=
  ⟨by decide, (part_agrees_with_parts duoDoc "flute").2.1 0 (by decide)⟩

/-- C2, as amended: `staffList(partId, instrumentId)` returns the staves of the
target instrument only.  If no part (of the score's parts and excerpt parts) has
the id, or the part found has no instrument with the instrument id, the result
is empty.  Otherwise, with `I` the first instrument of the part with that id,
`n = I.nstaves()` and `o` the sum of `nstaves()` of the instruments before `I`,
and provided the part has at least `o + n` staves, the result is the part's
staves at the part-local indices `o, o+1, ..., o+n-1` in that order, and so has
length exactly `n`. -/
theorem staffList_returns_instrument_staves (d : Doc) (partId instrumentId : String) :
    ((∀ p ∈ candidateParts d.score, (d.partObj p).id ≠ partId) →
        staffList d partId instrumentId = .ok [])
    ∧ (∀ P, part d partId none = some P →
        (∀ it ∈ (d.partObj P).instruments, (d.instrumentObj it).instrumentId ≠ instrumentId) →
        staffList d partId instrumentId = .ok [])
    ∧ (∀ P pre I post, part d partId none = some P →
        (d.partObj P).instruments = pre ++ I :: post →
        (∀ it ∈ pre, (d.instrumentObj it).instrumentId ≠ instrumentId) →
        (d.instrumentObj I).instrumentId = instrumentId →
        (pre.map (fun it => (d.instrumentObj it).nstaves)).sum + (d.instrumentObj I).nstaves
          ≤ (d.partObj P).staves.length →
        ∃ r, staffList d partId instrumentId = .ok r
          ∧ r = ((d.partObj P).staves.drop
                (pre.map (fun it => (d.instrumentObj it).nstaves)).sum).take
                  (d.instrumentObj I).nstaves
          ∧ r.length = (d.instrumentObj I).nstaves
          ∧ ∀ k, k < (d.instrumentObj I).nstaves →
              r[k]? = (d.partObj P).staves[
                (pre.map (fun it => (d.instrumentObj it).nstaves)).sum + k]?) := by
  refine ⟨?_, ?_, ?_⟩
  · intro hnone
    have hP : part d partId none = none := by
      unfold part
      simp only []
      rw [allParts_eq, partLoop_eq_find, List.find?_eq_none]
      intro p hp
      simpa using hnone p hp
    rw [staffList, hP]
  · intro P hP hne
    rw [staffList, hP]
    exact staffListLoop_none d _ _ _ 0 hne
  · intro P pre I post hP hsplit hpre hI hb
    refine ⟨_, ?_, rfl, ?_, ?_⟩
    · rw [staffList, hP]
      simp only []
      rw [hsplit, staffListLoop_skip d _ _ pre _ 0 hpre, staffListLoop, if_pos hI, Nat.zero_add,
        staffListInner_ok]
      · rw [List.nil_append, filterMap_range_eq_slice]
      · intro l hl
        have := List.mem_range.mp hl
        omega
    · rw [List.length_take, List.length_drop]
      omega
    · intro k hk
      rw [List.getElem?_take, if_pos hk, List.getElem?_drop]

/-- Witness of C2 on `pairDoc [0, 1, 2]`: instrument `b` comes after the
one-staff instrument `a`, so its offset is 1, and `staffList` returns the
staves at the indices 1 and 2. -/
theorem staffList_returns_instrument_staves_witness :
    part (pairDoc [0, 1, 2]) "p" none = some 0
      ∧ ∃ r, staffList (pairDoc [0, 1, 2]) "p" "b" = .ok r
          ∧ r = [1, 2] ∧ r.length = 2
          ∧ ∀ k, k < 2 → r[k]? = [0, 1, 2][1 + k]? :=
  ⟨by decide,
    (staffList_returns_instrument_staves (pairDoc [0, 1, 2]) "p" "b").2.2 0 [0] 1 []
      (by decide) (by decide) (by decide) (by decide) (by decide)⟩

/-- C2 as stated fails on `pairDoc [0]`: the part `p` is found, `b` is its first
instrument with that id, `n = 2` and `o = 1`, but the part has one staff only;
`staffList` reads an index the part does not have and returns no list, so no
result of length 2. -/
theorem staffList_without_staves_has_no_result :
    part (pairDoc [0]) "p" none = some 0
      ∧ ((pairDoc [0]).partObj 0).instruments = [0] ++ 1 :: []
      ∧ ((pairDoc [0]).instrumentObj 0).instrumentId ≠ "b"
      ∧ ((pairDoc [0]).instrumentObj 1).instrumentId = "b"
      ∧ ((pairDoc [0]).instrumentObj 0).nstaves = 1
      ∧ ((pairDoc [0]).instrumentObj 1).nstaves = 2
      ∧ ((pairDoc [0]).partObj 0).staves.length = 1
      ∧ staffList (pairDoc [0]) "p" "b" = .error .indexOutOfRange
      ∧ ¬ ∃ r, staffList (pairDoc [0]) "p" "b" = .ok r ∧ r.length = 2 := by
  have hfault : staffList (pairDoc [0]) "p" "b" = .error .indexOutOfRange := rfl
  refine ⟨by decide, by decide, by decide, by decide, by decide, by decide, by decide,
    hfault, ?_⟩
  rintro ⟨r, hr, _⟩
  rw [hfault] at hr
  cases hr

/-- C8: `instrument(staff)` inverts `staffList`.  For every part `P` found by
`partId` whose staves have pairwise distinct `idx()` and whose instruments'
`nstaves()` sum to at most the number of staves of `P`, and every instrument id,
`staffList` returns, and each staff `s` of the result with `s.part() = P` has
`instrument(s) = instrument(partId, instrumentId)`. -/
theorem instrument_of_staff_inverts_staffList (d : Doc) (partId instrumentId : String)
    (P : PartPtr) (hP : part d partId none = some P)
    (hidx : ((d.partObj P).staves.map (fun s => (d.staffObj s).idx)).Nodup)
    (hsum : ((d.partObj P).instruments.map (fun it => (d.instrumentObj it).nstaves)).sum
      ≤ (d.partObj P).staves.length) :
    ∃ r, staffList d partId instrumentId = .ok r ∧
      ∀ s ∈ r, (d.staffObj s).part = some P →
        instrumentOf d (some s) = .ok (instrument d partId instrumentId) := by
  obtain ⟨r, hr, hall⟩ := instrumentOfLoop_inverts d (d.partObj P) instrumentId hidx
    (d.partObj P).instruments 0 (by omega)
  refine ⟨r, ?_, ?_⟩
  · rw [staffList, hP]
    exact hr
  · intro s hs hpart
    rw [instrumentOf, hpart]
    simp only []
    rw [(hall s hs).2, instrument, hP]

/-- Witness of C8 on `duoDoc`, for the piano part and its instrument. -/
theorem instrument_of_staff_inverts_staffList_witness :
    ∃ r, staffList duoDoc "piano" "piano" = .ok r ∧
      ∀ s ∈ r, (duoDoc.staffObj s).part = some 1 →
        instrumentOf duoDoc (some s) = .ok (instrument duoDoc "piano" "piano") :=
  instrument_of_staff_inverts_staffList duoDoc "piano" "piano" 1
    (by decide) (by decide) (by decide)

/-! ## Claims on the mutating operations -/

/-- C5: `setPartVisible(partId, visible)` on a part that is found in the current
score issues exactly this sequence and nothing else: `startCmd` on the master
score, one undoable change of the part's `VISIBLE` property to `visible`,
`endCmd` on the master score, one `partChanged` event carrying that part, one
`partsChanged` notification; the log holds no change of any other part,
instrument or staff, and what the queries read of the document stays as it was. -/
theorem setPartVisible_found_sequence (h : Host) (partId : String) (visible : Bool) (st : St)
    (P : PartPtr) (hP : part st.doc partId none = some P) :
    (setPartVisible h partId visible st).log
        = st.log ++ [.startCmd, .change (.partUndoChangeProperty P .VISIBLE visible), .endCmd,
            .partChanged (some P), .partsChanged]
      ∧ (setPartVisible h partId visible st).doc = st.doc := by
  simp [setPartVisible, hP, record]

/-- Witness of C5 on `duoDoc`: hiding the piano part. -/
theorem setPartVisible_found_sequence_witness :
    part duoDoc "piano" none = some 1
      ∧ (setPartVisible idleHost "piano" false { doc := duoDoc, log := [] }).log
          = [.startCmd, .change (.partUndoChangeProperty 1 .VISIBLE false), .endCmd,
              .partChanged (some 1), .partsChanged] :=
  ⟨by decide,
    (setPartVisible_found_sequence idleHost "piano" false { doc := duoDoc, log := [] } 1
      (by decide)).1⟩

/-- C7: a failed target lookup is a no-op.  `setPartVisible` with an id found
neither in the current score nor in the master score, `setInstrumentVisible` and
`appendStaff` with a part id that is not found, and `setStaffVisible`,
`setStaffType`, `setCutaway`, `setVoiceVisible`, `appendLinkedStaff` and
`moveStaff` with a staff index at which the score has no staff, return with the
state they were given: no `startCmd`, no `endCmd`, no change and no event is
issued; `appendStaff` and `appendLinkedStaff` return null.  `removeParts` and
`removeStaves` with an empty list do the same. -/
theorem failed_lookup_is_noop (h : Host) (st : St) :
    (∀ partId visible, part st.doc partId none = none →
        part st.doc partId (some st.doc.masterScore) = none →
        setPartVisible h partId visible st = st)
    ∧ (∀ partId instrumentId visible, part st.doc partId none = none →
        setInstrumentVisible partId instrumentId visible st = st)
    ∧ (∀ partId instrumentId, part st.doc partId none = none →
        appendStaff h partId instrumentId st = .ok (none, st))
    ∧ (∀ staffIndex visible, staff st.doc staffIndex = none →
        setStaffVisible staffIndex visible st = st)
    ∧ (∀ staffIndex type, staff st.doc staffIndex = none →
        setStaffType h staffIndex type st = st)
    ∧ (∀ staffIndex value, staff st.doc staffIndex = none →
        setCutaway staffIndex value st = st)
    ∧ (∀ staffIndex voiceIndex visible, staff st.doc staffIndex = none →
        setVoiceVisible staffIndex voiceIndex visible st = st)
    ∧ (∀ staffIndex, staff st.doc staffIndex = none →
        appendLinkedStaff h staffIndex st = .ok (none, st))
    ∧ (∀ fromIndex toIndex, staff st.doc fromIndex = none →
        moveStaff h fromIndex toIndex st = .ok st)
    ∧ removeParts h [] st = st
    ∧ removeStaves h [] st = .ok st := by
  refine ⟨?_, ?_, ?_, ?_, ?_, ?_, ?_, ?_, ?_, ?_, ?_⟩
  · intro partId visible h1 h2
    simp [setPartVisible, h1, h2]
  · intro partId instrumentId visible h1
    simp [setInstrumentVisible, h1]
  · intro partId instrumentId h1
    simp [appendStaff, h1]
  · intro staffIndex visible h1
    simp [setStaffVisible, h1]
  · intro staffIndex type h1
    simp [setStaffType, h1]
  · intro staffIndex value h1
    simp [setCutaway, h1]
  · intro staffIndex voiceIndex visible h1
    simp [setVoiceVisible, h1]
  · intro staffIndex h1
    simp [appendLinkedStaff, h1]
  · intro fromIndex toIndex h1
    simp [moveStaff, h1]
  · simp [removeParts]
  · simp [removeStaves]

/-- Witness of C7 on `duoDoc`: no part has the id `oboe` and the score has no
staff at index 7; the operations leave the log empty. -/
theorem failed_lookup_is_noop_witness :
    (part duoDoc "oboe" none = none ∧ part duoDoc "oboe" (some duoDoc.masterScore) = none
      ∧ (setPartVisible idleHost "oboe" true { doc := duoDoc, log := [] }).log = [])
    ∧ (staff duoDoc 7 = none
      ∧ (setStaffVisible 7 true { doc := duoDoc, log := [] }).log = []) :=
  ⟨⟨by decide, by decide,
      congrArg St.log ((failed_lookup_is_noop idleHost { doc := duoDoc, log := [] }).1
        "oboe" true (by decide) (by decide))⟩,
    ⟨by decide,
      congrArg St.log ((failed_lookup_is_noop idleHost { doc := duoDoc, log := [] }).2.2.2.1
        7 true (by decide))⟩⟩

/-- C1, at the failing input: on `duoDoc` the piano part (1) owns staves 1 and
2, which is what `staffList` returns; `setInstrumentVisible("piano", "piano",
false)` calls `setInvisible(true)` on the staves at score indices 0 and 1, that
is on staff 0 of the flute part (0) and on staff 1, and never on staff 2. -/
theorem setInstrumentVisible_changes_other_part :
    part duoDoc "piano" none = some 1
      ∧ staffList duoDoc "piano" "piano" = .ok [1, 2]
      ∧ invisibleSetTo true
          (setInstrumentVisible "piano" "piano" false { doc := duoDoc, log := [] }).log = [0, 1]
      ∧ (duoDoc.staffObj 0).part = some 0 := by
  refine ⟨by decide, rfl, by decide, by decide⟩

/-- C4, at the failing input: `setStaffVisible(0, true)` on `duoDoc`, where the
staff is found, issues no `startCmd` at all before its change and its `endCmd`;
and `setInstrumentVisible` on the two-staff piano instrument issues one
`startCmd` and three `endCmd`. -/
theorem setStaffVisible_has_no_startCmd :
    staff duoDoc 0 = some 0
      ∧ (setStaffVisible 0 true { doc := duoDoc, log := [] }).log
          = [.change (.setInvisible 0 false), .change (.undoChangeStaff 0), .endCmd,
              .staffChanged 0, .partsChanged]
      ∧ countStartCmd (setStaffVisible 0 true { doc := duoDoc, log := [] }).log = 0
      ∧ countStartCmd
          (setInstrumentVisible "piano" "piano" true { doc := duoDoc, log := [] }).log = 1
      ∧ countEndCmd
          (setInstrumentVisible "piano" "piano" true { doc := duoDoc, log := [] }).log = 3 := by
  refine ⟨by decide, by decide, by decide, by decide, by decide⟩

/-- C6, at the failing input: on `duoDoc` the piano part is found and has no
instrument `oboe`; `setInstrumentVisible` and `appendStaff` (which returns null)
both issue `startCmd` and nothing else, so one `startCmd` and no `endCmd`. -/
theorem failed_instrument_lookup_leaves_command_open (h : Host) :
    part duoDoc "piano" none = some 1
      ∧ instrument duoDoc "piano" "oboe" = none
      ∧ (setInstrumentVisible "piano" "oboe" true { doc := duoDoc, log := [] }).log = [.startCmd]
      ∧ (∃ st, appendStaff h "piano" "oboe" { doc := duoDoc, log := [] } = .ok (none, st)
          ∧ st.log = [.startCmd] ∧ countStartCmd st.log = 1 ∧ countEndCmd st.log = 0) := by
  refine ⟨by decide, by decide, by decide, ?_⟩
  exact ⟨_, rfl, rfl, by decide, by decide⟩

/-- C10, at the failing input: the score of `duoDoc` has no staff at index 7;
`setCutaway(7, true)` returns with the state it was given, and
`setSmallStaff(7, true)` dereferences the null staff. -/
theorem setSmallStaff_dereferences_missing_staff :
    staff duoDoc 7 = none
      ∧ (setCutaway 7 true { doc := duoDoc, log := [] }).log = []
      ∧ setSmallStaff 7 true { doc := duoDoc, log := [] } = .error .nullDereference := by
  refine ⟨by decide, by decide, rfl⟩

end NotationParts
